import Mathlib

/-!
Shallow embedding of the pflow augmentation core (dperezrada/pflow) in Lean 4.

Python sources embedded here:
  - src/pflow/polygons.py      (geometry utilities)
  - src/pflow/typedef.py       (data model)
  - src/pflow/tools/augmentations.py  (augmentation pipeline and orchestrator)

Numeric conventions of the embedding: Python floats are modelled as rationals
(Rat); Python `round(x, d)` is modelled by rounding x * 10^d to the nearest
integer; Python `int(x)` truncates toward zero.  Fallible Python code
(exceptions) is modelled with `Except PyErr`; `None`-returning code with
`Option`.  External libraries (cv2, numpy, albumentations, shapely) enter the
embedding as explicit parameters (an `Env` record) or as faithful models of the
specific library behaviour the code relies on, documented at each definition.
-/

/-- Kinds of Python exceptions the embedded code can raise. -/
inductive PyErr where
  | valueError (msg : String)
  | attributeError
  | indexError
  | keyError
  | zeroDivisionError
  | typeError
  deriving DecidableEq, Repr

deriving instance DecidableEq for Except

/-- Floor of a rational as an integer, computed on the numerator and the
(positive) denominator with floor division. -/
def ratFloor (x : ℚ) : ℤ := x.num.fdiv x.den

/-- Absolute value of a rational, written so the kernel can evaluate it. -/
def ratAbs (x : ℚ) : ℚ := if x < 0 then -x else x

/-- Model of Python round(x, d) for d decimal digits: scale, round to the
nearest integer, unscale.  (Python rounds floats half-to-even; no theorem in
this file depends on tie behaviour.) -/
def pyRound (d : ℕ) (x : ℚ) : ℚ :=
  ((ratFloor (x * 10 ^ d + 1 / 2) : ℤ) : ℚ) / 10 ^ d

/-- Model of Python int(x): truncation toward zero, computed on the numerator
and the (positive) denominator. -/
def pyInt (x : ℚ) : ℤ := x.num.tdiv x.den

/-- Elements of a flat coordinate list at even indices 0, 2, 4, ...
(Python polygon[0::2], the x coordinates). -/
def evenIdx : List ℚ → List ℚ
  | [] => []
  | [x] => [x]
  | x :: _ :: rest => x :: evenIdx rest

/-- Elements of a flat coordinate list at odd indices 1, 3, 5, ...
(Python polygon[1::2], the y coordinates). -/
def oddIdx : List ℚ → List ℚ
  | [] => []
  | [_] => []
  | _ :: y :: rest => y :: oddIdx rest

/-- polygons.py, polygon_from_bbox: the 4-corner rectangle of a bbox as a flat
coordinate list (x1, y1, x2, y1, x2, y2, x1, y2). -/
def polygon_from_bbox (bbox : ℚ × ℚ × ℚ × ℚ) : List ℚ :=
  [bbox.1, bbox.2.1, bbox.2.2.1, bbox.2.1, bbox.2.2.1, bbox.2.2.2, bbox.1, bbox.2.2.2]

/-- polygons.py, bbox_from_polygon: (min x, min y, max x, max y) over the flat
coordinate list.  Python's min/max raise ValueError on an empty sequence, so
the embedding returns none when either coordinate list is empty. -/
def bbox_from_polygon (polygon : List ℚ) : Option (ℚ × ℚ × ℚ × ℚ) :=
  match (evenIdx polygon).min?, (oddIdx polygon).min?,
        (evenIdx polygon).max?, (oddIdx polygon).max? with
  | some a, some b, some c, some d => some (a, b, c, d)
  | _, _, _, _ => none

/-- polygons.py, calculate_center_from_bbox: midpoint, rounded to 6 digits. -/
def calculate_center_from_bbox (bbox : ℚ × ℚ × ℚ × ℚ) : ℚ × ℚ :=
  (pyRound 6 ((bbox.1 + bbox.2.2.1) / 2), pyRound 6 ((bbox.2.1 + bbox.2.2.2) / 2))

/-- polygons.py, calculate_center_from_polygon: arithmetic mean of the x and y
coordinate lists, rounded to 6 digits.  Python raises ZeroDivisionError when a
coordinate list is empty (len(x) == 0), so the embedding returns none then. -/
def calculate_center_from_polygon (polygon : List ℚ) : Option (ℚ × ℚ) :=
  let xs := evenIdx polygon
  let ys := oddIdx polygon
  if xs.length = 0 ∨ ys.length = 0 then none
  else some (pyRound 6 (xs.sum / xs.length), pyRound 6 (ys.sum / ys.length))

/-- A shapely Polygon as constructed by this code: the vertex sequence handed
to the shapely constructor (shapely closes the ring when reading it back). -/
structure SPoly where
  ring : List (ℚ × ℚ)
  deriving DecidableEq

/-- A shapely geometry as far as merge_polygons inspects it: either a single
Polygon or a MultiPolygon (the isinstance check in polygons.py). -/
inductive SGeom where
  | poly (p : SPoly)
  | multi (ps : List SPoly)
  deriving DecidableEq

/-- Model of shapely ring closure: exterior.coords repeats the first vertex at
the end unless the sequence is already explicitly closed. -/
def closeRing (ring : List (ℚ × ℚ)) : List (ℚ × ℚ) :=
  match ring with
  | [] => []
  | p :: rest => if (p :: rest).getLast? = some p ∧ rest ≠ [] then p :: rest else p :: rest ++ [p]

/-- Model of the shapely Polygon constructor: rejects fewer than 3 vertices
(shapely raises ValueError), otherwise records the vertex sequence. -/
def mkShapelyPolygon (pts : List (ℚ × ℚ)) : Except PyErr SPoly :=
  if pts.length < 3 then .error (.valueError "A polygon requires at least 3 points")
  else .ok ⟨pts⟩

/-- Pairing of a flat coordinate list used by merge_polygons:
zip(polygon[0::2], polygon[1::2]); Python's zip silently truncates. -/
def zipPairs (polygon : List ℚ) : List (ℚ × ℚ) :=
  (evenIdx polygon).zip (oddIdx polygon)

/-- Pairing used by iou_polygons: np.array(a).reshape(-1, 2); numpy raises a
ValueError when the flat length is odd. -/
def reshapePairs : List ℚ → Except PyErr (List (ℚ × ℚ))
  | [] => .ok []
  | [_] => .error (.valueError "cannot reshape array")
  | x :: y :: rest =>
    match reshapePairs rest with
    | .error e => .error e
    | .ok tail => .ok ((x, y) :: tail)

/-- Cross product term of the shoelace formula for one directed edge. -/
def crossQ (a b : ℚ × ℚ) : ℚ := a.1 * b.2 - b.1 * a.2

/-- Shoelace sum along a vertex list, closing the cycle back to v0. -/
def shoelaceFrom (v0 : ℚ × ℚ) : List (ℚ × ℚ) → ℚ
  | [] => 0
  | [v] => crossQ v v0
  | v :: w :: rest => crossQ v w + shoelaceFrom v0 (w :: rest)

/-- Signed doubled area of the vertex cycle described by a point list. -/
def shoelaceSum : List (ℚ × ℚ) → ℚ
  | [] => 0
  | v :: rest => shoelaceFrom v (v :: rest)

/-- Enclosed area of a vertex cycle (shapely Polygon.area: the absolute
surveyor's-formula area of the ring). -/
def ringArea (pts : List (ℚ × ℚ)) : ℚ := ratAbs (shoelaceSum pts) / 2

/-- Enclosed area of a polygon given as a flat coordinate list. -/
def polyAreaFlat (polygon : List ℚ) : ℚ := ringArea (zipPairs polygon)

/-- A flat coordinate list that describes a structurally valid polygon: an
even number of coordinates forming at least 3 points. -/
def validFlat (polygon : List ℚ) : Prop :=
  polygon.length % 2 = 0 ∧ 6 ≤ polygon.length

instance (polygon : List ℚ) : Decidable (validFlat polygon) := by
  unfold validFlat; infer_instance

/-- Exterior ring of a shapely polygon flattened back to alternating floats
(the return conversion in merge_polygons). -/
def exteriorFlat (p : SPoly) : List ℚ :=
  (closeRing p.ring).flatMap (fun v => [v.1, v.2])

/-- The list comprehension building shapely Polygons in merge_polygons; the
first constructor failure propagates, as in Python. -/
def buildShapelyList : List (List ℚ) → Except PyErr (List SPoly)
  | [] => .ok []
  | polygon :: rest =>
    match mkShapelyPolygon (zipPairs polygon), buildShapelyList rest with
    | .error e, _ => .error e
    | .ok _, .error e => .error e
    | .ok a, .ok tail => .ok (a :: tail)

/-- polygons.py, merge_polygons: build a shapely Polygon per input, take
all_polygons[0] (IndexError on an empty input), fold the rest with set-union,
collapse a MultiPolygon result to its convex hull, and flatten the exterior
ring.  The external shapely operations enter as parameters: unionFn models
Polygon.union, hullFn models the convex-hull collapse of a MultiPolygon. -/
def merge_polygons (unionFn : SGeom → SPoly → SGeom) (hullFn : List SPoly → SPoly)
    (polygons : List (List ℚ)) : Except PyErr (List ℚ) :=
  match buildShapelyList polygons with
  | .error e => .error e
  | .ok [] => .error .indexError
  | .ok (first :: rest) =>
    let merged := rest.foldl unionFn (SGeom.poly first)
    let mergedPoly :=
      match merged with
      | .poly p => p
      | .multi ps => hullFn ps
    .ok (exteriorFlat mergedPoly)

/-- augmentations.py, iou_polygons: reshape both flat tuples to point pairs,
build shapely Polygons, and return intersection area over union area.  The
shapely intersection operation enters as the parameter interArea; the areas of
the two polygons themselves are the ring areas.  A zero union area is a float
division by zero, which Python raises. -/
def iou_polygons (interArea : SPoly → SPoly → ℚ) (a b : List ℚ) : Except PyErr ℚ :=
  match reshapePairs a, reshapePairs b with
  | .error e, _ => .error e
  | .ok _, .error e => .error e
  | .ok pa, .ok pb =>
    match mkShapelyPolygon pa, mkShapelyPolygon pb with
    | .error e, _ => .error e
    | .ok _, .error e => .error e
    | .ok poly_a, .ok poly_b =>
      let intersection_area := interArea poly_a poly_b
      let union_area := ringArea poly_a.ring + ringArea poly_b.ring - intersection_area
      if union_area = 0 then .error .zeroDivisionError
      else .ok (intersection_area / union_area)

/-- Label masks: a 2-D grid of nonnegative integer object ids (0 is
background), as produced by np.zeros plus cv2.fillPoly and consumed by
np.unique and cv2.findContours. -/
abbrev Mask := List (List ℕ)

/-- An integer-point contour as returned by cv2.findContours. -/
abbrev Contour := List (ℤ × ℤ)

/-- Insertion into an ascending list, for the np.unique model. -/
def insertSorted (x : ℕ) : List ℕ → List ℕ
  | [] => [x]
  | y :: rest => if x ≤ y then x :: y :: rest else y :: insertSorted x rest

/-- Model of np.unique over a mask: the distinct pixel values in ascending
order. -/
def npUnique (mask : Mask) : List ℕ :=
  (mask.flatten.dedup).foldr insertSorted []

/-- External-library behaviour entering the pipeline, one field per call
site: cv2.imread (none models an unreadable file; otherwise the decoded
image's (height, width)), cv2.fillPoly burning one polygon's id into a mask,
the albumentations transform restricted to the mask channel (keyed by image
path and replica index, since each job draws its own random parameters),
cv2.findContours on the binary region of one label id, cv2.contourArea,
cv2.approxPolyDP followed by the squeeze-and-flatten step (none models the
degenerate case that triggers the raw-contour fallback), and the shapely
intersection area used by iou_polygons. -/
structure Env where
  read : String → Option (ℕ × ℕ)
  fillPoly : Mask → List (ℚ × ℚ) → ℕ → Mask
  transform : String → ℕ → Mask → Mask
  findContours : Mask → ℕ → List Contour
  contourArea : Contour → ℚ
  approx : Contour → Option Contour
  interArea : SPoly → SPoly → ℚ

/-- augmentations.py, find_biggest_contour: the contour with the largest
cv2.contourArea, scanning left to right with a strict-greater update;
max_area starts at 0, so if every contour has area 0 the result is none. -/
def find_biggest_contour (contourArea : Contour → ℚ) (contours : List Contour) :
    Option Contour :=
  (contours.foldl
    (fun acc contour =>
      if contourArea contour > acc.1 then (contourArea contour, some contour) else acc)
    ((0 : ℚ), (none : Option Contour))).2

/-- The normalization at the end of get_new_polygon: coordinates at even
positions are divided by the width, at odd positions by the height, each
rounded to 5 digits. -/
def normalizeFlat (width height : ℕ) (polygon : List ℚ) : List ℚ :=
  polygon.enum.map (fun ip =>
    if ip.1 % 2 = 0 then pyRound 5 (ip.2 / (width : ℚ)) else pyRound 5 (ip.2 / (height : ℚ)))

/-- augmentations.py, get_new_polygon: take the contours of the binary region
of one label id, keep the biggest, raise ValueError("No contour found") when
there is none, simplify with approxPolyDP but fall back to the raw contour
when flattening the simplified contour fails, flatten to alternating
coordinates, and normalize to the unit square with 5-digit rounding. -/
def get_new_polygon (env : Env) (transformed_mask : Mask) (polygon_id : ℕ)
    (width height : ℕ) : Except PyErr (List ℚ) :=
  let contours := env.findContours transformed_mask polygon_id
  match find_biggest_contour env.contourArea contours with
  | none => .error (.valueError "No contour found")
  | some contour =>
    let pts := (env.approx contour).getD contour
    let polygon : List ℚ := pts.flatMap (fun point => [(point.1 : ℚ), (point.2 : ℚ)])
    .ok (normalizeFlat width height polygon)

/-- The re-expansion to pixel space in get_new_polygons:
int(el * width) at even positions, int(el * height) at odd positions. -/
def scaleToPixels (width height : ℕ) (polygon : List ℚ) : List ℚ :=
  polygon.enum.map (fun ip =>
    if ip.1 % 2 = 0 then ((pyInt (ip.2 * width) : ℤ) : ℚ)
    else ((pyInt (ip.2 * height) : ℤ) : ℚ))

/-- Python list indexing at a nonnegative position: IndexError out of range. -/
def pyIndex {α : Type} (l : List α) (i : ℕ) : Except PyErr α :=
  match l[i]? with
  | none => .error .indexError
  | some a => .ok a

/-- The per-id validation computation inside get_new_polygons: recover the
normalized polygon for one label id, re-expand it to pixel space, fetch the
original polygon at position id - 1 (IndexError when the id exceeds the
polygon count), and compute the IoU against it. -/
def replicaIoU (env : Env) (transformed_mask : Mask) (polygons : List (List ℚ))
    (width height : ℕ) (polygon_id : ℕ) : Except PyErr ℚ :=
  match get_new_polygon env transformed_mask polygon_id width height with
  | .error e => .error e
  | .ok new_polygon =>
    match pyIndex polygons (polygon_id - 1) with
    | .error e => .error e
    | .ok original =>
      iou_polygons env.interArea (scaleToPixels width height new_polygon) original

/-- The loop of get_new_polygons over the list of distinct mask values: ids
that are not positive are skipped; for each positive id the recovered polygon
is appended only when the computed IoU is at least 0.3, otherwise
ValueError("IoU is too low") aborts the whole call.  (replicaIoU re-runs the
pure get_new_polygon computation; being deterministic, the outcome is the
same as the single evaluation in the Python code.) -/
def get_new_polygons_go (env : Env) (transformed_mask : Mask)
    (polygons : List (List ℚ)) (width height : ℕ) :
    List ℕ → Except PyErr (List (List ℚ))
  | [] => .ok []
  | polygon_id :: rest =>
    if 0 < polygon_id then
      match get_new_polygon env transformed_mask polygon_id width height with
      | .error e => .error e
      | .ok new_polygon =>
        match replicaIoU env transformed_mask polygons width height polygon_id with
        | .error e => .error e
        | .ok calculated_iou =>
          if calculated_iou < 3 / 10 then .error (.valueError "IoU is too low")
          else
            match get_new_polygons_go env transformed_mask polygons width height rest with
            | .error e => .error e
            | .ok tail => .ok (new_polygon :: tail)
    else get_new_polygons_go env transformed_mask polygons width height rest

/-- augmentations.py, get_new_polygons: iterate the per-id recovery and
validation over np.unique of the transformed mask. -/
def get_new_polygons (env : Env) (transformed_mask : Mask)
    (polygons : List (List ℚ)) (width height : ℕ) : Except PyErr (List (List ℚ)) :=
  get_new_polygons_go env transformed_mask polygons width height (npUnique transformed_mask)

/-- The segment denormalization loop near the top of generate_augmented_image
(it runs before the try block): pixel coordinates int(width * x),
int(height * y); an odd-length segmentation raises an uncaught IndexError at
polygon_raw[i + 1]. -/
def denormPolygon (width height : ℕ) : List ℚ → Except PyErr (List ℚ)
  | [] => .ok []
  | [_] => .error .indexError
  | x :: y :: rest =>
    match denormPolygon width height rest with
    | .error e => .error e
    | .ok tail =>
      .ok (((pyInt ((width : ℚ) * x) : ℤ) : ℚ) :: ((pyInt ((height : ℚ) * y) : ℤ) : ℚ) :: tail)

/-- The denormalization loop over all segments of the image. -/
def denormAll (width height : ℕ) : List (List ℚ) → Except PyErr (List (List ℚ))
  | [] => .ok []
  | s :: rest =>
    match denormPolygon width height s, denormAll width height rest with
    | .error e, _ => .error e
    | .ok _, .error e => .error e
    | .ok q, .ok tail => .ok (q :: tail)

/-- The mask rasterization loop of generate_augmented_image: burn each
polygon's index + 1 into an initially zero mask with cv2.fillPoly, in list
order. -/
def buildMask (env : Env) (height width : ℕ) (polygons : List (List ℚ)) : Mask :=
  polygons.enum.foldl
    (fun mask ip => env.fillPoly mask (zipPairs ip.2) (ip.1 + 1))
    (List.replicate height (List.replicate width 0))

/-- The success record returned by generate_augmented_image. -/
structure AugRecord where
  path : String
  segments : List (List ℚ)
  id : String
  original_id : String
  image_index : ℕ
  deriving DecidableEq, Repr

/-- augmentations.py, generate_augmented_image.  Outcomes: .error models an
exception escaping the function - cv2.imread returns None for an unreadable
file so image.shape raises AttributeError, and the denormalization loop can
raise IndexError; both run before the try block.  .ok none models the
except-branch return None (any fault inside the try block: transform,
contour recovery, IoU validation, count mismatch) as well as the final
empty-result return None.  .ok (some record) is the success path. -/
def generate_augmented_image (env : Env) (image_id image_path : String)
    (segments : List (List ℚ)) (target_folder : String) (new_index : ℕ) :
    Except PyErr (Option AugRecord) :=
  let new_id := image_id ++ "_aug_" ++ toString new_index
  let target_file := target_folder ++ "/" ++ new_id ++ ".jpg"
  match env.read image_path with
  | none => .error .attributeError
  | some hw =>
    match denormAll hw.2 hw.1 segments with
    | .error e => .error e
    | .ok polygons =>
      let transformed_mask :=
        env.transform image_path new_index (buildMask env hw.1 hw.2 polygons)
      let checked : Except PyErr (List (List ℚ)) :=
        match get_new_polygons env transformed_mask polygons hw.2 hw.1 with
        | .error e => .error e
        | .ok new_polygons =>
          if new_polygons.length ≠ polygons.length then
            .error (.valueError "Different number of polygons")
          else .ok new_polygons
      match checked with
      | .error _ => .ok none
      | .ok new_polygons =>
        if new_polygons.length = 0 then .ok none
        else .ok (some ⟨target_file, new_polygons, new_id, image_id, new_index⟩)

/-- typedef.py, Annotation.  conf is a float defaulting to -1; tags defaults
to the empty list. -/
structure Annotation where
  id : String
  category_id : ℤ
  center : Option (ℚ × ℚ)
  bbox : Option (ℚ × ℚ × ℚ × ℚ)
  segmentation : Option (List ℚ)
  task : String
  conf : ℚ
  category_name : String
  tags : List String
  deriving DecidableEq, Repr

/-- typedef.py, Image.  intermediate_ids is declared List[int] in the
dataclass, but at runtime it holds image id strings (generate_augmentations
appends original_image.id, a str); the embedding uses the runtime type. -/
structure Image where
  id : String
  path : String
  intermediate_ids : List String
  width : ℕ
  height : ℕ
  size_kb : ℕ
  group : String
  annotations : List Annotation
  deriving DecidableEq, Repr

/-- typedef.py, Category. -/
structure Category where
  id : ℤ
  name : String
  deriving DecidableEq, Repr

/-- typedef.py, Dataset: the dataclass declares exactly two fields, images
and categories.  It declares no groups field, although other modules
(tools/base.py, tools/dataset.py, tools/augmentations.py) read and pass
one. -/
structure Dataset where
  images : List Image
  categories : List Category
  deriving DecidableEq, Repr

/-- One (image, replica) job submitted to the thread pool: exactly the
arguments generate_augmentations passes to generate_augmented_image. -/
structure Job where
  image_id : String
  image_path : String
  segments : List (List ℚ)
  replica_index : ℕ
  deriving DecidableEq, Repr

/-- The submission loop of generate_augmentations: for every image and every
replica index below number, one job carrying the image's non-None
segmentations in annotation order. -/
def jobsOf (images : List Image) (number : ℕ) : List Job :=
  images.flatMap (fun image =>
    (List.range number).map (fun i =>
      ⟨image.id, image.path, image.annotations.filterMap (fun a => a.segmentation), i⟩))

/-- The dict comprehension original_images_by_id: a later image with the same
id overwrites an earlier one, so lookup resolves to the last occurrence. -/
def originalImagesById (images : List Image) (key : String) : Option Image :=
  images.reverse.find? (fun image => image.id = key)

/-- One augmented annotation as assembled in the result loop of
generate_augmentations: id gets the replica index suffix, bbox and center are
re-derived from the recovered segmentation (bbox_from_polygon raises
ValueError and calculate_center_from_polygon ZeroDivisionError on an empty
polygon, both uncaught in the orchestrator loop), and "augmented" is appended
to the tags. -/
def buildAugAnn (replica_index : ℕ) (a : Annotation) (new_segmentation : List ℚ) :
    Except PyErr Annotation :=
  match bbox_from_polygon new_segmentation with
  | none => .error (.valueError "min() arg is an empty sequence")
  | some bbox =>
    match calculate_center_from_polygon new_segmentation with
    | none => .error .zeroDivisionError
    | some center =>
      .ok ⟨a.id ++ "_" ++ toString replica_index, a.category_id, some center, some bbox,
        some new_segmentation, a.task, a.conf, a.category_name, a.tags ++ ["augmented"]⟩

/-- The zip-comprehension over (original annotations, recovered segments):
Python zip truncates at the shorter list, and the first assembly failure
propagates. -/
def buildAugAnns (replica_index : ℕ) :
    List Annotation → List (List ℚ) → Except PyErr (List Annotation)
  | _, [] => .ok []
  | [], _ :: _ => .ok []
  | a :: arest, seg :: segrest =>
    match buildAugAnn replica_index a seg, buildAugAnns replica_index arest segrest with
    | .error e, _ => .error e
    | .ok _, .error e => .error e
    | .ok na, .ok tail => .ok (na :: tail)

/-- The as_completed result loop of generate_augmentations, processing the
completed jobs in completion order: future.result() re-raises any exception
that escaped the job (aborting the whole loop); a None result is skipped; a
record is resolved against the submitting image by id and assembled into a
new Image with lineage metadata. -/
def collectResults (env : Env) (tmp : String) (images : List Image) :
    List Job → Except PyErr (List Image)
  | [] => .ok []
  | job :: rest =>
    match generate_augmented_image env job.image_id job.image_path job.segments tmp
        job.replica_index with
    | .error e => .error e
    | .ok none => collectResults env tmp images rest
    | .ok (some info) =>
      match originalImagesById images info.original_id with
      | none => .error .keyError
      | some original_image =>
        match buildAugAnns info.image_index original_image.annotations info.segments with
        | .error e => .error e
        | .ok anns =>
          match collectResults env tmp images rest with
          | .error e => .error e
          | .ok tail =>
            .ok (⟨info.id, info.path,
              original_image.intermediate_ids ++ [original_image.id],
              original_image.width, original_image.height, original_image.size_kb,
              original_image.group, anns⟩ :: tail)

/-- augmentations.py, generate_augmentations: create the run-unique temp
folder (tmp), submit one job per image and replica index, and assemble the
completed results.  completion_order models as_completed: the submitted jobs
listed in the order their futures complete; faithfulness to a real run
requires completion_order to be a permutation of jobsOf images number, which
the theorems take as a hypothesis. -/
def generate_augmentations (env : Env) (tmp : String) (images : List Image)
    (number : ℕ) (completion_order : List Job) : Except PyErr (List Image) :=
  collectResults env tmp images completion_order

/-- The field names declared by the Dataset dataclass in typedef.py. -/
def datasetFields : List String := ["images", "categories"]

/-- Python attribute lookup on a Dataset instance: only declared dataclass
fields resolve; any other attribute name raises AttributeError. -/
def datasetHasAttr (attr : String) : Bool := datasetFields.contains attr

/-- augmentations.py, generic: run generate_augmentations over the dataset's
images, then evaluate Dataset(images=dataset.images + augmented_images,
categories=dataset.categories, groups=dataset.groups).  Because the Dataset
dataclass in typedef.py declares no groups field, the argument expression
dataset.groups raises AttributeError before the constructor is entered (and
the unknown groups keyword would make the generated dataclass constructor
raise TypeError anyway). -/
def generic (env : Env) (tmp : String) (completion_order : List Job)
    (dataset : Dataset) (number : ℕ) : Except PyErr Dataset :=
  match generate_augmentations env tmp dataset.images number completion_order with
  | .error e => .error e
  | .ok augmented_images =>
    if datasetHasAttr "groups" then
      .ok ⟨dataset.images ++ augmented_images, dataset.categories⟩
    else .error .attributeError

/-- A concrete environment for witnesses: every image decodes to 10 x 10, the
transformed mask keeps only label 1 on a 2 x 2 grid, label 1 recovers a
square contour of side 9, contours report a positive area, simplification is
the identity, and the shapely intersection area is 81 (the side-9 square is
contained in the side-10 original). -/
def envSquare : Env :=
  ⟨fun _ => some (10, 10),
   fun mask _ _ => mask,
   fun _ _ _ => [[0, 1], [1, 1]],
   fun _ pid => if pid = 1 then [[(0, 0), (9, 0), (9, 9), (0, 9)]] else [],
   fun _ => 81,
   fun c => some c,
   fun _ _ => 81⟩

/-- envSquare with a shapely intersection area of 0: the recovered polygon is
reported disjoint from the original, so the IoU is 0. -/
def envLow : Env :=
  ⟨fun _ => some (10, 10),
   fun mask _ _ => mask,
   fun _ _ _ => [[0, 1], [1, 1]],
   fun _ pid => if pid = 1 then [[(0, 0), (9, 0), (9, 9), (0, 9)]] else [],
   fun _ => 81,
   fun c => some c,
   fun _ _ => 0⟩

/-- An environment whose image files are unreadable: cv2.imread returns None
for every path. -/
def envBad : Env :=
  ⟨fun _ => none,
   fun mask _ _ => mask,
   fun _ _ mask => mask,
   fun _ _ => [],
   fun _ => 0,
   fun c => some c,
   fun _ _ => 0⟩

/-- A concrete input image with two annotations, one of which carries a
segmentation (the unit square, normalized). -/
def img1 : Image :=
  ⟨"i1", "p1", [], 10, 10, 7, "train",
    [⟨"a1", 2, none, none, some [0, 0, 1, 0, 1, 1, 0, 1], "detect", -1, "cat", ["t0"]⟩,
     ⟨"a2", 3, none, none, none, "detect", -1, "dog", []⟩]⟩

/-- A concrete input image whose two annotations both carry segmentations;
under envSquare the transformed mask keeps only label 1, so every replica of
this image fails the polygon-count check inside the try block. -/
def img2 : Image :=
  ⟨"i2", "p2", [], 10, 10, 7, "train",
    [⟨"b1", 2, none, none, some [0, 0, 1, 0, 1, 1, 0, 1], "detect", -1, "cat", []⟩,
     ⟨"b2", 3, none, none, some [0, 0, 1, 0, 1, 1, 0, 1], "detect", -1, "dog", []⟩]⟩

/-- The augmented image generate_augmentations produces from img1 under
envSquare with one replica. -/
def imgOut : Image :=
  ⟨"i1_aug_0", "t/i1_aug_0.jpg", ["i1"], 10, 10, 7, "train",
    [⟨"a1_0", 2, some (9 / 20, 9 / 20), some (0, 0, 9 / 10, 9 / 10),
      some [0, 0, 9 / 10, 0, 9 / 10, 9 / 10, 0, 9 / 10], "detect", -1, "cat",
      ["t0", "augmented"]⟩]⟩

/-- C6 -- bbox_from_polygon inverts polygon_from_bbox on well-formed boxes:
for every bbox (x1, y1, x2, y2) with x1 < x2 and y1 < y2,
bbox_from_polygon (polygon_from_bbox b) recovers b exactly. -/
theorem bbox_polygon_round_trip (x1 y1 x2 y2 : ℚ) (hx : x1 < x2) (hy : y1 < y2) :
    bbox_from_polygon (polygon_from_bbox (x1, y1, x2, y2)) = some (x1, y1, x2, y2) := by
  have hx' : x1 ≤ x2 := le_of_lt hx
  have hy' : y1 ≤ y2 := le_of_lt hy
  simp only [polygon_from_bbox, bbox_from_polygon, evenIdx, oddIdx,
    List.min?, List.max?, List.foldl]
  have e1 : x1 ⊓ x2 ⊓ x2 ⊓ x1 = x1 := by
    rw [min_eq_left hx', min_eq_left hx', min_self]
  have e2 : y1 ⊓ y1 ⊓ y2 ⊓ y2 = y1 := by
    rw [min_self, min_eq_left hy', min_eq_left hy']
  have e3 : x1 ⊔ x2 ⊔ x2 ⊔ x1 = x2 := by
    rw [max_eq_right hx', max_self, max_eq_left hx']
  have e4 : y1 ⊔ y1 ⊔ y2 ⊔ y2 = y2 := by
    rw [max_self, max_eq_right hy', max_self]
  rw [e1, e2, e3, e4]

/-- Witness for C6 at the concrete bbox (0, 0, 1, 1). -/
theorem bbox_polygon_round_trip_witness :
    bbox_from_polygon (polygon_from_bbox (0, 0, 1, 1)) = some (0, 0, 1, 1) :=
  bbox_polygon_round_trip 0 0 1 1 (by norm_num) (by norm_num)

/-- Length of the even-index sublist of a flat coordinate list. -/
theorem evenIdx_length (l : List ℚ) : (evenIdx l).length = (l.length + 1) / 2 := by
  match l with
  | [] => simp [evenIdx]
  | [x] => simp [evenIdx]
  | x :: y :: rest =>
    have ih := evenIdx_length rest
    simp only [evenIdx, List.length_cons, ih]
    omega

/-- Length of the odd-index sublist of a flat coordinate list. -/
theorem oddIdx_length (l : List ℚ) : (oddIdx l).length = l.length / 2 := by
  match l with
  | [] => simp [oddIdx]
  | [x] => simp [oddIdx]
  | x :: y :: rest =>
    have ih := oddIdx_length rest
    simp only [oddIdx, List.length_cons, ih]
    omega

/-- zip-truncation pairing yields one point per coordinate pair. -/
theorem zipPairs_length (l : List ℚ) : (zipPairs l).length = l.length / 2 := by
  simp only [zipPairs, List.length_zip, evenIdx_length, oddIdx_length]
  omega

/-- The cross term of an edge from a vertex to itself vanishes. -/
theorem crossQ_self (v : ℚ × ℚ) : crossQ v v = 0 := by
  simp only [crossQ]; ring

/-- Appending the cycle base point to a nonempty vertex list does not change
the shoelace sum: the extra edge is degenerate. -/
theorem shoelaceFrom_append_base (v0 : ℚ × ℚ) (l : List (ℚ × ℚ)) (h : l ≠ []) :
    shoelaceFrom v0 (l ++ [v0]) = shoelaceFrom v0 l := by
  match l with
  | [] => exact absurd rfl h
  | [v] =>
    simp only [List.cons_append, List.nil_append, shoelaceFrom, crossQ_self, add_zero]
  | v :: w :: rest =>
    have ih := shoelaceFrom_append_base v0 (w :: rest) (by simp)
    simp only [List.cons_append] at ih ⊢
    simp only [shoelaceFrom]
    rw [ih]

/-- Closing a ring (shapely's exterior ring closure) preserves the shoelace
sum of the vertex cycle. -/
theorem shoelaceSum_closeRing (pts : List (ℚ × ℚ)) :
    shoelaceSum (closeRing pts) = shoelaceSum pts := by
  match pts with
  | [] => rfl
  | p :: rest =>
    simp only [closeRing]
    by_cases hc : (p :: rest).getLast? = some p ∧ rest ≠ []
    · rw [if_pos hc]
    · rw [if_neg hc]
      simp only [shoelaceSum]
      show shoelaceFrom p ((p :: rest) ++ [p]) = shoelaceFrom p (p :: rest)
      rw [shoelaceFrom_append_base p (p :: rest) (by simp)]

/-- Flattening a point list to alternating coordinates and re-pairing it is
the identity. -/
theorem zipPairs_flatMap (l : List (ℚ × ℚ)) :
    zipPairs (l.flatMap (fun v => [v.1, v.2])) = l := by
  match l with
  | [] => rfl
  | v :: rest =>
    have ih := zipPairs_flatMap rest
    show zipPairs (v.1 :: v.2 :: rest.flatMap (fun v => [v.1, v.2])) = v :: rest
    simp only [zipPairs, evenIdx, oddIdx] at ih ⊢
    rw [List.zip_cons_cons, ih]

/-- On even-length flat lists the strict numpy reshape agrees with the
zip-truncation pairing. -/
theorem reshapePairs_even (a : List ℚ) (h : a.length % 2 = 0) :
    reshapePairs a = .ok (zipPairs a) := by
  match a with
  | [] => rfl
  | [x] => simp at h
  | x :: y :: rest =>
    have ih := reshapePairs_even rest (by simp at h; omega)
    simp only [reshapePairs, ih]
    simp [zipPairs, evenIdx, oddIdx, List.zip]

/-- Constructor failures in the Polygon-building comprehension are always
shapely ValueErrors, never index errors. -/
theorem buildShapelyList_error_is_value (ps : List (List ℚ)) (e : PyErr)
    (h : buildShapelyList ps = .error e) : ∃ msg, e = .valueError msg := by
  match ps with
  | [] => simp [buildShapelyList] at h
  | q :: qs =>
    simp only [buildShapelyList] at h
    cases hm : mkShapelyPolygon (zipPairs q) with
    | error e1 =>
      simp only [hm] at h
      simp only [mkShapelyPolygon] at hm
      by_cases hlen : (zipPairs q).length < 3
      · simp only [hlen, if_pos] at hm
        cases h
        cases hm
        exact ⟨_, rfl⟩
      · simp [hlen] at hm
    | ok a =>
      simp only [hm] at h
      cases hr : buildShapelyList qs with
      | error e2 =>
        simp only [hr] at h
        cases h
        exact buildShapelyList_error_is_value qs _ hr
      | ok tail => simp [hr] at h

/-- A successful Polygon-building comprehension over a nonempty input yields a
nonempty list. -/
theorem buildShapelyList_ok_cons (q : List ℚ) (qs : List (List ℚ)) (l : List SPoly)
    (h : buildShapelyList (q :: qs) = .ok l) : ∃ a t, l = a :: t := by
  simp only [buildShapelyList] at h
  cases hm : mkShapelyPolygon (zipPairs q) with
  | error e1 => simp [hm] at h
  | ok a =>
    simp only [hm] at h
    cases hr : buildShapelyList qs with
    | error e2 => simp [hr] at h
    | ok tail =>
      simp only [hr] at h
      cases h
      exact ⟨a, tail, rfl⟩

/-- C10 -- merge_polygons requires a nonempty input: on the empty sequence the
all_polygons[0] access fails with an IndexError, and on any nonempty input the
initial element access and the union fold never produce an index error. -/
theorem merge_polygons_requires_nonempty (unionFn : SGeom → SPoly → SGeom)
    (hullFn : List SPoly → SPoly) :
    merge_polygons unionFn hullFn [] = .error .indexError ∧
    ∀ polygons, polygons ≠ [] →
      merge_polygons unionFn hullFn polygons ≠ .error .indexError := by
  constructor
  · rfl
  · intro polygons hne
    match polygons with
    | [] => exact absurd rfl hne
    | q :: qs =>
      simp only [merge_polygons]
      cases hb : buildShapelyList (q :: qs) with
      | error e =>
        obtain ⟨msg, rfl⟩ := buildShapelyList_error_is_value _ _ hb
        simp
      | ok l =>
        obtain ⟨a, t, rfl⟩ := buildShapelyList_ok_cons q qs l hb
        simp

/-- Witness for C10: a concrete nonempty call that does not raise the index
error (instantiating the union and hull parameters trivially). -/
theorem merge_polygons_requires_nonempty_witness :
    merge_polygons (fun g _ => g) (fun _ => ⟨[]⟩) [[0, 0, 1, 0, 1, 1]] ≠
      .error .indexError :=
  (merge_polygons_requires_nonempty (fun g _ => g) (fun _ => ⟨[]⟩)).2
    [[0, 0, 1, 0, 1, 1]] (by decide)

/-- C7 -- merge_polygons on a single valid polygon returns a geometrically
equivalent polygon: the call succeeds and the result encloses exactly the same
area as the input (the vertex list may differ, e.g. by ring closure), for any
behaviour of the external union and hull operations. -/
theorem merge_polygons_single_equivalent (unionFn : SGeom → SPoly → SGeom)
    (hullFn : List SPoly → SPoly) (p : List ℚ) (hv : validFlat p) :
    ∃ q, merge_polygons unionFn hullFn [p] = .ok q ∧ polyAreaFlat q = polyAreaFlat p := by
  have hlen : ¬ (zipPairs p).length < 3 := by
    rw [zipPairs_length]
    obtain ⟨he, hs⟩ := hv
    omega
  have hb : buildShapelyList [p] = .ok [⟨zipPairs p⟩] := by
    simp [buildShapelyList, mkShapelyPolygon, if_neg hlen]
  refine ⟨exteriorFlat ⟨zipPairs p⟩, ?_, ?_⟩
  · simp [merge_polygons, hb]
  · simp only [polyAreaFlat, exteriorFlat]
    rw [zipPairs_flatMap]
    simp only [ringArea]
    rw [shoelaceSum_closeRing]

/-- Witness for C7 at a concrete right triangle, with trivial instantiations
of the external union and hull parameters. -/
theorem merge_polygons_single_equivalent_witness :
    validFlat [0, 0, 1, 0, 1, 1] ∧
    ∃ q, merge_polygons (fun g _ => g) (fun _ => ⟨[]⟩) [[0, 0, 1, 0, 1, 1]] = .ok q ∧
      polyAreaFlat q = polyAreaFlat [0, 0, 1, 0, 1, 1] :=
  ⟨by decide,
    merge_polygons_single_equivalent (fun g _ => g) (fun _ => ⟨[]⟩) [0, 0, 1, 0, 1, 1]
      (by decide)⟩

/-- C9 -- iou_polygons is symmetric: for flat coordinate tuples describing
valid polygons, at least one with positive area, swapping the arguments gives
the same IoU.  The external shapely intersection enters as interArea, which is
symmetric because set intersection is. -/
theorem iou_polygons_symmetric (interArea : SPoly → SPoly → ℚ)
    (hsym : ∀ p q, interArea p q = interArea q p) (a b : List ℚ)
    (ha : validFlat a) (hb : validFlat b)
    (_harea : 0 < polyAreaFlat a ∨ 0 < polyAreaFlat b) :
    iou_polygons interArea a b = iou_polygons interArea b a := by
  have hra := reshapePairs_even a ha.1
  have hrb := reshapePairs_even b hb.1
  have hla : ¬ (zipPairs a).length < 3 := by
    rw [zipPairs_length]
    have := ha.2
    omega
  have hlb : ¬ (zipPairs b).length < 3 := by
    rw [zipPairs_length]
    have := hb.2
    omega
  simp only [iou_polygons, hra, hrb, mkShapelyPolygon, if_neg hla, if_neg hlb]
  have hI : interArea ⟨zipPairs a⟩ ⟨zipPairs b⟩ = interArea ⟨zipPairs b⟩ ⟨zipPairs a⟩ :=
    hsym _ _
  have hU : ringArea (SPoly.mk (zipPairs a)).ring + ringArea (SPoly.mk (zipPairs b)).ring =
      ringArea (SPoly.mk (zipPairs b)).ring + ringArea (SPoly.mk (zipPairs a)).ring :=
    add_comm _ _
  rw [hI, hU]

/-- Witness for C9 at two concrete triangles with a symmetric concrete
intersection-area function. -/
theorem iou_polygons_symmetric_witness :
    validFlat [0, 0, 4, 0, 4, 4] ∧ validFlat [0, 0, 2, 0, 2, 2] ∧
    (0 < polyAreaFlat [0, 0, 4, 0, 4, 4] ∨ 0 < polyAreaFlat [0, 0, 2, 0, 2, 2]) ∧
    iou_polygons (fun _ _ => 2) [0, 0, 4, 0, 4, 4] [0, 0, 2, 0, 2, 2] =
      iou_polygons (fun _ _ => 2) [0, 0, 2, 0, 2, 2] [0, 0, 4, 0, 4, 4] :=
  ⟨by decide, by decide,
    Or.inl (by norm_num [polyAreaFlat, ringArea, ratAbs, zipPairs, evenIdx, oddIdx,
      List.zip_cons_cons, shoelaceSum, shoelaceFrom, crossQ]),
    iou_polygons_symmetric (fun _ _ => 2) (fun _ _ => rfl) _ _ (by decide) (by decide)
      (Or.inl (by norm_num [polyAreaFlat, ringArea, ratAbs, zipPairs, evenIdx, oddIdx,
        List.zip_cons_cons, shoelaceSum, shoelaceFrom, crossQ]))⟩

/-- The denormalization loop yields one pixel polygon per input segment. -/
theorem denormAll_length (w h : ℕ) : ∀ (segs polys : List (List ℚ)),
    denormAll w h segs = .ok polys → polys.length = segs.length := by
  intro segs
  induction segs with
  | nil =>
    intro polys hp
    simp only [denormAll, Except.ok.injEq] at hp
    subst hp
    rfl
  | cons s rest ih =>
    intro polys hp
    simp only [denormAll] at hp
    cases hd : denormPolygon w h s with
    | error e => simp [hd] at hp
    | ok q =>
      cases hr : denormAll w h rest with
      | error e => simp [hd, hr] at hp
      | ok tail =>
        simp only [hd, hr, Except.ok.injEq] at hp
        subst hp
        simp [ih tail hr]

/-- A successful generate_augmented_image record carries the submitting image
id, the replica index, the synthetic id, and exactly one recovered segment
per input segment (the polygon-count check enforces the last part). -/
theorem generate_augmented_image_ok_fields (env : Env) (image_id image_path : String)
    (segments : List (List ℚ)) (target_folder : String) (new_index : ℕ) (info : AugRecord)
    (h : generate_augmented_image env image_id image_path segments target_folder new_index =
      .ok (some info)) :
    info.original_id = image_id ∧ info.image_index = new_index ∧
    info.id = image_id ++ "_aug_" ++ toString new_index ∧
    info.segments.length = segments.length := by
  simp only [generate_augmented_image] at h
  cases hread : env.read image_path with
  | none => simp [hread] at h
  | some hw =>
    simp only [hread] at h
    cases hd : denormAll hw.2 hw.1 segments with
    | error e => simp [hd] at h
    | ok polygons =>
      simp only [hd] at h
      cases hg : get_new_polygons env
          (env.transform image_path new_index (buildMask env hw.1 hw.2 polygons))
          polygons hw.2 hw.1 with
      | error e => simp [hg] at h
      | ok new_polygons =>
        simp only [hg] at h
        by_cases hne : new_polygons.length ≠ polygons.length
        · simp [hne] at h
        · simp only [hne, if_false] at h
          by_cases hz : new_polygons.length = 0
          · simp [hz] at h
          · simp only [hz, if_false, Except.ok.injEq, Option.some.injEq] at h
            subst h
            refine ⟨rfl, rfl, rfl, ?_⟩
            have h1 : new_polygons.length = polygons.length := not_ne_iff.mp hne
            rw [h1, denormAll_length hw.2 hw.1 segments polygons hd]

/-- C3 -- all-or-nothing per replica: whenever the recovered polygon count
differs from the input polygon count for the image, generate_augmented_image
returns None for the whole replica (never a record with a surviving
subset of the annotations). -/
theorem generate_augmented_image_count_mismatch
    (env : Env) (image_id image_path : String) (segments : List (List ℚ))
    (target_folder : String) (new_index : ℕ) (hw : ℕ × ℕ)
    (polygons new_polygons : List (List ℚ))
    (hread : env.read image_path = some hw)
    (hdenorm : denormAll hw.2 hw.1 segments = .ok polygons)
    (hrec : get_new_polygons env
        (env.transform image_path new_index (buildMask env hw.1 hw.2 polygons))
        polygons hw.2 hw.1 = .ok new_polygons)
    (hmis : new_polygons.length ≠ polygons.length) :
    generate_augmented_image env image_id image_path segments target_folder new_index =
      .ok none := by
  simp only [generate_augmented_image, hread, hdenorm, hrec, if_pos hmis]

/-- Witness for C3: two unit-square segments, a transform under which the
second object vanishes from the mask; one polygon is recovered out of two and
the whole replica yields None. -/
theorem generate_augmented_image_count_mismatch_witness :
    envSquare.read "p1" = some (10, 10) ∧
    denormAll 10 10 [[0, 0, 1, 0, 1, 1, 0, 1], [0, 0, 1, 0, 1, 1, 0, 1]] =
      .ok [[0, 0, 10, 0, 10, 10, 0, 10], [0, 0, 10, 0, 10, 10, 0, 10]] ∧
    get_new_polygons envSquare
        (envSquare.transform "p1" 0 (buildMask envSquare 10 10
          [[0, 0, 10, 0, 10, 10, 0, 10], [0, 0, 10, 0, 10, 10, 0, 10]]))
        [[0, 0, 10, 0, 10, 10, 0, 10], [0, 0, 10, 0, 10, 10, 0, 10]] 10 10 =
      .ok [[0, 0, 9 / 10, 0, 9 / 10, 9 / 10, 0, 9 / 10]] ∧
    generate_augmented_image envSquare "i1" "p1"
      [[0, 0, 1, 0, 1, 1, 0, 1], [0, 0, 1, 0, 1, 1, 0, 1]] "t" 0 = .ok none :=
  ⟨rfl, by with_unfolding_all rfl, by with_unfolding_all rfl,
    generate_augmented_image_count_mismatch envSquare "i1" "p1"
      [[0, 0, 1, 0, 1, 1, 0, 1], [0, 0, 1, 0, 1, 1, 0, 1]] "t" 0 (10, 10)
      [[0, 0, 10, 0, 10, 10, 0, 10], [0, 0, 10, 0, 10, 10, 0, 10]]
      [[0, 0, 9 / 10, 0, 9 / 10, 9 / 10, 0, 9 / 10]]
      rfl (by with_unfolding_all rfl) (by with_unfolding_all rfl) (by decide)⟩

/-- If any positive id in the unique-value list computes an IoU below 0.3,
the loop of get_new_polygons raises. -/
theorem go_error_of_low (env : Env) (mask : Mask) (polygons : List (List ℚ))
    (w h : ℕ) : ∀ (ids : List ℕ) (pid : ℕ), pid ∈ ids → 0 < pid →
    ∀ q, replicaIoU env mask polygons w h pid = .ok q → q < 3 / 10 →
    ∃ e, get_new_polygons_go env mask polygons w h ids = .error e := by
  intro ids
  induction ids with
  | nil =>
    intro pid hm
    simp at hm
  | cons a rest ih =>
    intro pid hm hpos q hio hlow
    simp only [get_new_polygons_go]
    by_cases hpa : 0 < a
    · rw [if_pos hpa]
      cases hg : get_new_polygon env mask a w h with
      | error e => exact ⟨e, rfl⟩
      | ok np =>
        cases hri : replicaIoU env mask polygons w h a with
        | error e => exact ⟨e, rfl⟩
        | ok qa =>
          by_cases hql : qa < 3 / 10
          · exact ⟨.valueError "IoU is too low", by simp [hql]⟩
          · rcases List.mem_cons.mp hm with heq | hrest
            · exfalso
              subst heq
              rw [hio] at hri
              have hqq : q = qa := Except.ok.inj hri
              exact hql (hqq ▸ hlow)
            · obtain ⟨e, he⟩ := ih pid hrest hpos q hio hlow
              exact ⟨e, by simp [hql, he]⟩
    · rw [if_neg hpa]
      rcases List.mem_cons.mp hm with heq | hrest
      · exact absurd (heq ▸ hpos) hpa
      · exact ih pid hrest hpos q hio hlow

/-- If the loop of get_new_polygons succeeds, every positive id in the
unique-value list had a computed IoU of at least 0.3. -/
theorem go_ok_of_iou (env : Env) (mask : Mask) (polygons : List (List ℚ))
    (w h : ℕ) : ∀ (ids : List ℕ) (l : List (List ℚ)),
    get_new_polygons_go env mask polygons w h ids = .ok l →
    ∀ pid ∈ ids, 0 < pid →
    ∃ q, replicaIoU env mask polygons w h pid = .ok q ∧ 3 / 10 ≤ q := by
  intro ids
  induction ids with
  | nil =>
    intro l hok pid hm
    simp at hm
  | cons a rest ih =>
    intro l hok pid hm hpos
    simp only [get_new_polygons_go] at hok
    by_cases hpa : 0 < a
    · rw [if_pos hpa] at hok
      cases hg : get_new_polygon env mask a w h with
      | error e => simp [hg] at hok
      | ok np =>
        simp only [hg] at hok
        cases hri : replicaIoU env mask polygons w h a with
        | error e => simp [hri] at hok
        | ok qa =>
          simp only [hri] at hok
          by_cases hql : qa < 3 / 10
          · simp [hql] at hok
          · simp only [hql, if_false] at hok
            cases hrest : get_new_polygons_go env mask polygons w h rest with
            | error e => simp [hrest] at hok
            | ok tail =>
              rcases List.mem_cons.mp hm with heq | hmem
              · exact ⟨qa, heq ▸ hri, not_lt.mp hql⟩
              · exact ih tail hrest pid hmem hpos
    · rw [if_neg hpa] at hok
      rcases List.mem_cons.mp hm with heq | hmem
      · exact absurd (heq ▸ hpos) hpa
      · exact ih l hok pid hmem hpos

/-- C4 -- the 0.3 IoU threshold in get_new_polygons: whenever the pixel-space
IoU computed for some positive label id of the transformed mask is below 0.3,
the whole call raises (rejecting the replica); and on a successful call every
recovered polygon's computed IoU was at least 0.3. -/
theorem get_new_polygons_iou_threshold (env : Env) (transformed_mask : Mask)
    (polygons : List (List ℚ)) (width height : ℕ) :
    (∀ polygon_id ∈ npUnique transformed_mask, 0 < polygon_id →
      ∀ q, replicaIoU env transformed_mask polygons width height polygon_id = .ok q →
        q < 3 / 10 →
        ∃ e, get_new_polygons env transformed_mask polygons width height = .error e) ∧
    (∀ l, get_new_polygons env transformed_mask polygons width height = .ok l →
      ∀ polygon_id ∈ npUnique transformed_mask, 0 < polygon_id →
        ∃ q, replicaIoU env transformed_mask polygons width height polygon_id = .ok q ∧
          3 / 10 ≤ q) := by
  constructor
  · intro pid hm hpos q hio hlow
    exact go_error_of_low env transformed_mask polygons width height
      (npUnique transformed_mask) pid hm hpos q hio hlow
  · intro l hok pid hm hpos
    exact go_ok_of_iou env transformed_mask polygons width height
      (npUnique transformed_mask) l hok pid hm hpos

/-- Witness for C4: under envLow the shapely intersection is empty, the
computed IoU for label 1 is 0 < 0.3, and the whole call indeed raises. -/
theorem get_new_polygons_iou_threshold_witness :
    1 ∈ npUnique [[0, 1], [1, 1]] ∧
    replicaIoU envLow [[0, 1], [1, 1]] [[0, 0, 10, 0, 10, 10, 0, 10]] 10 10 1 = .ok 0 ∧
    ((0 : ℚ) < 3 / 10) ∧
    (∃ e, get_new_polygons envLow [[0, 1], [1, 1]] [[0, 0, 10, 0, 10, 10, 0, 10]] 10 10 =
      .error e) :=
  ⟨by decide, by with_unfolding_all rfl, by norm_num,
    (get_new_polygons_iou_threshold envLow [[0, 1], [1, 1]]
        [[0, 0, 10, 0, 10, 10, 0, 10]] 10 10).1 1 (by decide) (by decide) 0
      (by with_unfolding_all rfl) (by norm_num)⟩

/-- Field projections of a successfully assembled augmented annotation. -/
theorem buildAugAnn_fields (k : ℕ) (a : Annotation) (seg : List ℚ) (na : Annotation)
    (h : buildAugAnn k a seg = .ok na) :
    na.id = a.id ++ "_" ++ toString k ∧ na.tags = a.tags ++ ["augmented"] := by
  simp only [buildAugAnn] at h
  cases hb : bbox_from_polygon seg with
  | none => simp [hb] at h
  | some bbox =>
    simp only [hb] at h
    cases hc : calculate_center_from_polygon seg with
    | none => simp [hc] at h
    | some center =>
      simp only [hc, Except.ok.injEq] at h
      subst h
      exact ⟨rfl, rfl⟩

/-- A successful zip-assembly pairs the i-th original annotation with the
i-th recovered segment, and its length is the zip length. -/
theorem buildAugAnns_spec (k : ℕ) :
    ∀ (origs : List Annotation) (segs : List (List ℚ)) (anns : List Annotation),
    buildAugAnns k origs segs = .ok anns →
    anns.length = min origs.length segs.length ∧
    ∀ i (hi : i < anns.length) (ho : i < origs.length) (hs : i < segs.length),
      buildAugAnn k (origs.get ⟨i, ho⟩) (segs.get ⟨i, hs⟩) = .ok (anns.get ⟨i, hi⟩) := by
  intro origs
  induction origs with
  | nil =>
    intro segs anns h
    cases segs with
    | nil =>
      simp only [buildAugAnns, Except.ok.injEq] at h
      subst h
      exact ⟨by simp, fun i hi => by simp at hi⟩
    | cons s srest =>
      simp only [buildAugAnns, Except.ok.injEq] at h
      subst h
      exact ⟨by simp, fun i hi => by simp at hi⟩
  | cons a arest ih =>
    intro segs anns h
    cases segs with
    | nil =>
      simp only [buildAugAnns, Except.ok.injEq] at h
      subst h
      exact ⟨by simp, fun i hi => by simp at hi⟩
    | cons s srest =>
      simp only [buildAugAnns] at h
      cases hb : buildAugAnn k a s with
      | error e => simp [hb] at h
      | ok na =>
        simp only [hb] at h
        cases hr : buildAugAnns k arest srest with
        | error e => simp [hr] at h
        | ok tail =>
          simp only [hr, Except.ok.injEq] at h
          subst h
          obtain ⟨hlen, hidx⟩ := ih srest tail hr
          constructor
          · simp only [List.length_cons, hlen]
            omega
          · intro i hi ho hs
            cases i with
            | zero => simpa using hb
            | succ j =>
              have hj := hidx j (by simpa using hi) (by simpa using ho) (by simpa using hs)
              simpa using hj

/-- Every job in the submission list comes from a listed image, carries that
image's id, path, and non-None segmentations, and has a replica index below
the replica count. -/
theorem jobsOf_mem (images : List Image) (number : ℕ) (job : Job)
    (h : job ∈ jobsOf images number) :
    ∃ image ∈ images, job.image_id = image.id ∧ job.image_path = image.path ∧
      job.segments = image.annotations.filterMap (fun a => a.segmentation) ∧
      job.replica_index < number := by
  simp only [jobsOf, List.mem_flatMap, List.mem_map, List.mem_range] at h
  obtain ⟨image, himg, i, hi, hjob⟩ := h
  subst hjob
  exact ⟨image, himg, rfl, rfl, rfl, hi⟩

/-- A successful dict lookup returns a listed image with the looked-up id. -/
theorem originalImagesById_mem (images : List Image) (key : String) (o : Image)
    (h : originalImagesById images key = some o) : o ∈ images ∧ o.id = key := by
  simp only [originalImagesById] at h
  have hm := List.mem_of_find?_eq_some h
  have hp := List.find?_some h
  exact ⟨List.mem_reverse.mp hm, by simpa using hp⟩

/-- When image ids are distinct, the dict lookup of an image's own id returns
exactly that image. -/
theorem originalImagesById_self (images : List Image)
    (hids : (images.map (fun im => im.id)).Nodup) (img : Image) (hm : img ∈ images) :
    originalImagesById images img.id = some img := by
  have hsome : (images.reverse.find? (fun image => image.id = img.id)).isSome := by
    rw [List.find?_isSome]
    exact ⟨img, List.mem_reverse.mpr hm, by simp⟩
  obtain ⟨o, ho⟩ := Option.isSome_iff_exists.mp hsome
  have ho' : originalImagesById images img.id = some o := ho
  obtain ⟨homem, hoid⟩ := originalImagesById_mem images img.id o ho'
  have : o = img := List.inj_on_of_nodup_map hids homem hm hoid
  rw [ho', this]

/-- The number of extracted segmentations equals the number of annotations
that carry one. -/
theorem length_filterMap_segmentation (l : List Annotation) :
    (l.filterMap (fun a => a.segmentation)).length =
      (l.filter (fun a => a.segmentation.isSome)).length := by
  induction l with
  | nil => rfl
  | cons a rest ih =>
    cases hs : a.segmentation with
    | none => simp [List.filterMap_cons, List.filter_cons, hs, ih]
    | some seg => simp [List.filterMap_cons, List.filter_cons, hs, ih]

/-- Origin of every image assembled by the result loop: a completed job whose
record was resolved and zipped into a new Image record. -/
theorem collectResults_mem (env : Env) (tmp : String) (images : List Image) :
    ∀ (order : List Job) (out : List Image),
    collectResults env tmp images order = .ok out →
    ∀ newImg ∈ out, ∃ job ∈ order, ∃ info original_image anns,
      generate_augmented_image env job.image_id job.image_path job.segments tmp
        job.replica_index = .ok (some info) ∧
      originalImagesById images info.original_id = some original_image ∧
      buildAugAnns info.image_index original_image.annotations info.segments = .ok anns ∧
      newImg = ⟨info.id, info.path,
        original_image.intermediate_ids ++ [original_image.id],
        original_image.width, original_image.height, original_image.size_kb,
        original_image.group, anns⟩ := by
  intro order
  induction order with
  | nil =>
    intro out h newImg hmem
    simp only [collectResults, Except.ok.injEq] at h
    subst h
    simp at hmem
  | cons job rest ih =>
    intro out h newImg hmem
    simp only [collectResults] at h
    cases hg : generate_augmented_image env job.image_id job.image_path job.segments tmp
        job.replica_index with
    | error e => simp [hg] at h
    | ok res =>
      simp only [hg] at h
      cases res with
      | none =>
        obtain ⟨job', hj', rest'⟩ := ih out h newImg hmem
        exact ⟨job', List.mem_cons_of_mem job hj', rest'⟩
      | some info =>
        cases hl : originalImagesById images info.original_id with
        | none => simp [hl] at h
        | some original_image =>
          simp only [hl] at h
          cases hb : buildAugAnns info.image_index original_image.annotations
              info.segments with
          | error e => simp [hb] at h
          | ok anns =>
            simp only [hb] at h
            cases hr : collectResults env tmp images rest with
            | error e => simp [hr] at h
            | ok tail =>
              simp only [hr, Except.ok.injEq] at h
              subst h
              rcases List.mem_cons.mp hmem with heq | hmem2
              · exact ⟨job, List.mem_cons_self job rest, info, original_image, anns,
                  hg, hl, hb, heq⟩
              · obtain ⟨job', hj', rest'⟩ := ih tail hr newImg hmem2
                exact ⟨job', List.mem_cons_of_mem job hj', rest'⟩

/-- When every completed job yields None, the result loop collects nothing. -/
theorem collectResults_all_none (env : Env) (tmp : String) (images : List Image) :
    ∀ (order : List Job),
    (∀ job ∈ order, generate_augmented_image env job.image_id job.image_path job.segments
      tmp job.replica_index = .ok none) →
    collectResults env tmp images order = .ok [] := by
  intro order
  induction order with
  | nil => intro _; rfl
  | cons job rest ih =>
    intro hall
    have hj := hall job (List.mem_cons_self job rest)
    simp only [collectResults, hj]
    exact ih (fun j hjm => hall j (List.mem_cons_of_mem job hjm))

/-- C1 counterexample -- a failure to read the image file is NOT caught at
the job boundary: with a single image whose file is unreadable, every job
raises AttributeError (imread returns None and image.shape is evaluated
before the try block), future.result() re-raises it in the result loop, and
generate_augmentations aborts with the exception instead of returning []. -/
theorem generate_augmentations_read_failure_aborts :
    generate_augmentations envBad "t" [img1] 1 (jobsOf [img1] 1) =
      .error .attributeError := by
  with_unfolding_all rfl

/-- C1 (amended) -- failure isolation holds for faults raised inside the
per-job try block: if every submitted job fails with a caught fault
(converted to None), the orchestrator aborts nothing and returns the empty
list, whatever order the futures complete in. -/
theorem generate_augmentations_caught_failures (env : Env) (tmp : String)
    (images : List Image) (number : ℕ) (completion_order : List Job)
    (hperm : completion_order.Perm (jobsOf images number))
    (hall : ∀ job ∈ jobsOf images number,
      generate_augmented_image env job.image_id job.image_path job.segments tmp
        job.replica_index = .ok none) :
    generate_augmentations env tmp images number completion_order = .ok [] := by
  apply collectResults_all_none
  intro job hj
  exact hall job (hperm.mem_iff.mp hj)

/-- Witness for the amended C1: both replicas of img2 fail the in-try
polygon-count check, and the orchestrator returns []. -/
theorem generate_augmentations_caught_failures_witness :
    (jobsOf [img2] 1).Perm (jobsOf [img2] 1) ∧
    (∀ job ∈ jobsOf [img2] 1,
      generate_augmented_image envSquare job.image_id job.image_path job.segments "t"
        job.replica_index = .ok none) ∧
    generate_augmentations envSquare "t" [img2] 1 (jobsOf [img2] 1) = .ok [] :=
  ⟨List.Perm.refl _, by with_unfolding_all decide,
    generate_augmentations_caught_failures envSquare "t" [img2] 1 (jobsOf [img2] 1)
      (List.Perm.refl _) (by with_unfolding_all decide)⟩

/-- C2 -- the code cannot satisfy the claim: generic always raises, because
the Dataset dataclass declares no groups field while generic reads
dataset.groups and passes a groups keyword to the Dataset constructor.  Every
call of generic ends in an exception instead of returning the described
Dataset. -/
theorem generic_always_raises (env : Env) (tmp : String) (completion_order : List Job)
    (dataset : Dataset) (number : ℕ) :
    ∃ e, generic env tmp completion_order dataset number = .error e := by
  simp only [generic]
  cases h : generate_augmentations env tmp dataset.images number completion_order with
  | error e => exact ⟨e, rfl⟩
  | ok augmented_images =>
    refine ⟨.attributeError, ?_⟩
    have hattr : datasetHasAttr "groups" = false := by decide
    simp [hattr]

/-- C5 -- lineage of every image produced by generate_augmentations: it stems
from a listed original o and a replica index k < number; its intermediate_ids
are o's intermediate_ids with o.id appended; its i-th annotation id is the
i-th original annotation id with _k appended, and its tags are the original
tags with "augmented" appended. -/
theorem generate_augmentations_lineage (env : Env) (tmp : String) (images : List Image)
    (number : ℕ) (completion_order : List Job) (out : List Image)
    (hperm : completion_order.Perm (jobsOf images number))
    (hrun : generate_augmentations env tmp images number completion_order = .ok out) :
    ∀ newImg ∈ out, ∃ o ∈ images, ∃ k, k < number ∧
      newImg.intermediate_ids = o.intermediate_ids ++ [o.id] ∧
      ∀ i (hi : i < newImg.annotations.length) (ho : i < o.annotations.length),
        (newImg.annotations.get ⟨i, hi⟩).id =
          (o.annotations.get ⟨i, ho⟩).id ++ "_" ++ toString k ∧
        (newImg.annotations.get ⟨i, hi⟩).tags =
          (o.annotations.get ⟨i, ho⟩).tags ++ ["augmented"] := by
  intro newImg hmem
  obtain ⟨job, hjord, info, original_image, anns, hg, hl, hb, heq⟩ :=
    collectResults_mem env tmp images completion_order out hrun newImg hmem
  obtain ⟨himgmem, hoid⟩ := originalImagesById_mem images info.original_id original_image hl
  obtain ⟨image, himg2, hid, hpath, hsegs, hlt⟩ :=
    jobsOf_mem images number job (hperm.mem_iff.mp hjord)
  obtain ⟨hoidf, hidxf, hidf, hlenf⟩ := generate_augmented_image_ok_fields env job.image_id
    job.image_path job.segments tmp job.replica_index info hg
  subst heq
  refine ⟨original_image, himgmem, info.image_index, ?_, rfl, ?_⟩
  · rw [hidxf]
    exact hlt
  · intro i hi ho
    obtain ⟨hlen, hidx⟩ := buildAugAnns_spec info.image_index original_image.annotations
      info.segments anns hb
    have hi' : i < anns.length := hi
    have hs : i < info.segments.length := by omega
    have hone := hidx i hi' ho hs
    exact buildAugAnn_fields info.image_index (original_image.annotations.get ⟨i, ho⟩)
      (info.segments.get ⟨i, hs⟩) (anns.get ⟨i, hi'⟩) hone

/-- Witness for C5: the single successful replica of img1 under envSquare,
with the lineage facts instantiated at that concrete run. -/
theorem generate_augmentations_lineage_witness :
    (jobsOf [img1] 1).Perm (jobsOf [img1] 1) ∧
    generate_augmentations envSquare "t" [img1] 1 (jobsOf [img1] 1) = .ok [imgOut] ∧
    (∀ newImg ∈ [imgOut], ∃ o ∈ [img1], ∃ k, k < 1 ∧
      newImg.intermediate_ids = o.intermediate_ids ++ [o.id] ∧
      ∀ i (hi : i < newImg.annotations.length) (ho : i < o.annotations.length),
        (newImg.annotations.get ⟨i, hi⟩).id =
          (o.annotations.get ⟨i, ho⟩).id ++ "_" ++ toString k ∧
        (newImg.annotations.get ⟨i, hi⟩).tags =
          (o.annotations.get ⟨i, ho⟩).tags ++ ["augmented"]) :=
  ⟨List.Perm.refl _, by with_unfolding_all rfl,
    generate_augmentations_lineage envSquare "t" [img1] 1 (jobsOf [img1] 1) [imgOut]
      (List.Perm.refl _) (by with_unfolding_all rfl)⟩

/-- C8 -- the augmented annotation list is built by position-wise zipping of
all original annotations with the recovered segments: its length equals the
number of original annotations that carry a segmentation, and the i-th
recovered segment is paired with the i-th original annotation overall
(whether or not that annotation is the one the segment came from). -/
theorem generate_augmentations_positional_pairing (env : Env) (tmp : String)
    (images : List Image) (number : ℕ) (completion_order : List Job) (out : List Image)
    (hperm : completion_order.Perm (jobsOf images number))
    (hids : (images.map (fun im => im.id)).Nodup)
    (hrun : generate_augmentations env tmp images number completion_order = .ok out) :
    ∀ newImg ∈ out, ∃ o ∈ images, ∃ segs : List (List ℚ), ∃ k : ℕ,
      segs.length = (o.annotations.filter (fun a => a.segmentation.isSome)).length ∧
      newImg.annotations.length = segs.length ∧
      ∀ i (hi : i < newImg.annotations.length) (ho : i < o.annotations.length)
        (hs : i < segs.length),
        buildAugAnn k (o.annotations.get ⟨i, ho⟩) (segs.get ⟨i, hs⟩) =
          .ok (newImg.annotations.get ⟨i, hi⟩) := by
  intro newImg hmem
  obtain ⟨job, hjord, info, original_image, anns, hg, hl, hb, heq⟩ :=
    collectResults_mem env tmp images completion_order out hrun newImg hmem
  obtain ⟨image, himg2, hid, hpath, hsegs, hlt⟩ :=
    jobsOf_mem images number job (hperm.mem_iff.mp hjord)
  obtain ⟨hoidf, hidxf, hidf, hlenf⟩ := generate_augmented_image_ok_fields env job.image_id
    job.image_path job.segments tmp job.replica_index info hg
  have hl2 : originalImagesById images image.id = some image :=
    originalImagesById_self images hids image himg2
  rw [hoidf, hid, hl2] at hl
  have horig : image = original_image := Option.some.inj hl
  subst horig
  obtain ⟨hlen, hidx⟩ := buildAugAnns_spec info.image_index image.annotations
    info.segments anns hb
  subst heq
  refine ⟨image, himg2, info.segments, info.image_index, ?_, ?_, ?_⟩
  · rw [hlenf, hsegs, length_filterMap_segmentation]
  · have hle : info.segments.length ≤ image.annotations.length := by
      rw [hlenf, hsegs]
      exact List.length_filterMap_le _ _
    have hanns : anns.length = min image.annotations.length info.segments.length := hlen
    simp only []
    omega
  · intro i hi ho hs
    exact hidx i hi ho hs

/-- Witness for C8: in the concrete run on img1 (two annotations, one with a
segmentation), the produced image has exactly one annotation, paired
positionally with img1's first annotation. -/
theorem generate_augmentations_positional_pairing_witness :
    (jobsOf [img1] 1).Perm (jobsOf [img1] 1) ∧
    (([img1].map (fun im => im.id)).Nodup) ∧
    generate_augmentations envSquare "t" [img1] 1 (jobsOf [img1] 1) = .ok [imgOut] ∧
    (∀ newImg ∈ [imgOut], ∃ o ∈ [img1], ∃ segs : List (List ℚ), ∃ k : ℕ,
      segs.length = (o.annotations.filter (fun a => a.segmentation.isSome)).length ∧
      newImg.annotations.length = segs.length ∧
      ∀ i (hi : i < newImg.annotations.length) (ho : i < o.annotations.length)
        (hs : i < segs.length),
        buildAugAnn k (o.annotations.get ⟨i, ho⟩) (segs.get ⟨i, hs⟩) =
          .ok (newImg.annotations.get ⟨i, hi⟩)) :=
  ⟨List.Perm.refl _, by simp, by with_unfolding_all rfl,
    generate_augmentations_positional_pairing envSquare "t" [img1] 1 (jobsOf [img1] 1)
      [imgOut] (List.Perm.refl _) (by simp) (by with_unfolding_all rfl)⟩
